/- Formal model of the PaymobTask order-fulfillment backend.

   This file gives a shallow embedding of the core logic of the repository:
   the token-bucket rate limiter (src/api/throttling.py), the order
   processing task with its stock reservation critical section and the CSV
   export generator (src/core/tasks.py), and the order retry action
   (src/api/views.py).  Numeric time and token quantities are modelled with
   exact rational arithmetic; stock counts with integers.  Theorems at the
   end of the file settle the specification claims against these models. -/
import Mathlib

namespace PaymobTask

/-- Rate-limit bucket stored in the cache, keyed by identity:
    token count and last-update timestamp (src/api/throttling.py).
    Time and token counts are rationals (Python floats modelled exactly). -/
structure Bucket where
  tokens : ℚ
  last_update : ℚ
deriving DecidableEq

/-- One call of TokenBucketThrottle.allow_request for a single identity
    (src/api/throttling.py lines 37-72), given the cached bucket (or none
    when the key is absent/expired).  Returns the admission decision and the
    bucket written back to the cache.  The identity lookup and the superuser
    bypass are outside this per-bucket algorithm. -/
def allow_request (capacity refill_rate : ℚ) (now : ℚ) (bucket? : Option Bucket) :
    Bool × Bucket :=
  match bucket? with
  | none =>
      -- Initialize new bucket: deduct 1 for the current request.
      (true, { tokens := capacity - 1, last_update := now })
  | some bucket =>
      let time_elapsed := now - bucket.last_update
      let tokens_to_add := time_elapsed * refill_rate
      let new_tokens := min (bucket.tokens + tokens_to_add) capacity
      if 1 ≤ new_tokens then
        (true, { tokens := new_tokens - 1, last_update := now })
      else
        (false, { tokens := new_tokens, last_update := now })

/-- Run a sequence of allow_request calls for one identity at the given
    timestamps, threading the cached bucket.  Returns the list of admission
    decisions and the final cached bucket. -/
def run_calls (capacity refill_rate : ℚ) (bucket? : Option Bucket) :
    List ℚ → List Bool × Option Bucket
  | [] => ([], bucket?)
  | t :: ts =>
      let step := allow_request capacity refill_rate t bucket?
      let rest := run_calls capacity refill_rate (some step.2) ts
      (step.1 :: rest.1, rest.2)

/-- Atomic check-and-decrement executed under the product-row lock in the
    approval branch of process_order (src/core/tasks.py lines 42-54):
    succeed and deduct when stock covers the requested quantity, otherwise
    fail and leave stock unchanged. -/
def tryReserve (stock quantity : ℤ) : Bool × ℤ :=
  if stock ≥ quantity then (true, stock - quantity) else (false, stock)

/-- Run a sequence of reservation attempts against one product.  The row
    lock serializes concurrent attempts, so any interleaving is equivalent
    to this sequential composition. -/
def run_reservations (stock : ℤ) : List ℤ → List Bool × ℤ
  | [] => ([], stock)
  | q :: qs =>
      let step := tryReserve stock q
      let rest := run_reservations step.2 qs
      (step.1 :: rest.1, rest.2)

/-- Total quantity of the attempts marked successful. -/
def successful_total : List ℤ → List Bool → ℤ
  | q :: qs, b :: bs => (if b then q else 0) + successful_total qs bs
  | _, _ => 0

/-- Order status values (src/core/models.py, Order.STATUS_CHOICES). -/
inductive OrderStatus
  | pending
  | processing
  | approved
  | failed
deriving DecidableEq

/-- Creation timestamp components (Python datetime, as used by strftime). -/
structure DateTime where
  year : ℕ
  month : ℕ
  day : ℕ
  hour : ℕ
  minute : ℕ
  second : ℕ
deriving DecidableEq

/-- Order row (src/core/models.py, Order).  The created_by field carries the
    creator profile's username and product_id the foreign key, which is what
    the tasks read. -/
structure OrderRec where
  reference_code : String
  product_id : ℕ
  quantity : ℤ
  status : OrderStatus
  created_by : String
  has_been_processed : Bool
  created_at : DateTime
deriving DecidableEq

/-- Product row (src/core/models.py, Product).  The company field carries
    the owning company's name, which is what the export task reads. -/
structure ProductRec where
  sku : String
  name : String
  stock_quantity : ℤ
  company : String
  is_active : Bool
deriving DecidableEq

/-- Database state visible to process_order: order and product tables keyed
    by primary key. -/
structure DB where
  orders : ℕ → Option OrderRec
  products : ℕ → Option ProductRec

/-- Persist an order row (order.save()). -/
def DB.setOrder (db : DB) (i : ℕ) (o : OrderRec) : DB :=
  { db with orders := fun j => if j = i then some o else db.orders j }

/-- Persist a product row (product.save()). -/
def DB.setProduct (db : DB) (i : ℕ) (p : ProductRec) : DB :=
  { db with products := fun j => if j = i then some p else db.products j }

/-- The process_order task (src/core/tasks.py lines 14-73).  The approve
    argument is the outcome of the random.random() < 0.7 draw.  If the order
    is missing, the task logs and returns with no writes.  Otherwise the
    order is saved as processing; on an approval decision the product row is
    locked and stock is check-and-decremented (approved on success, failed on
    insufficient stock); on a failure decision the order fails directly; the
    final save also sets has_been_processed.  A missing product row raises
    inside the approval branch and is swallowed by the blanket handler,
    leaving the order as last saved (processing). -/
def process_order (order_id : ℕ) (approve : Bool) (db : DB) : DB :=
  match db.orders order_id with
  | none => db
  | some o =>
      let db1 := db.setOrder order_id { o with status := OrderStatus.processing }
      if approve then
        -- saving the order leaves products untouched, so the locked read of
        -- the product row sees db's product table
        match db.products o.product_id with
        | none => db1
        | some p =>
            if p.stock_quantity ≥ o.quantity then
              let db2 := db1.setProduct o.product_id
                { p with stock_quantity := p.stock_quantity - o.quantity }
              db2.setOrder order_id
                { o with status := OrderStatus.approved, has_been_processed := true }
            else
              db1.setOrder order_id
                { o with status := OrderStatus.failed, has_been_processed := true }
      else
        db1.setOrder order_id
          { o with status := OrderStatus.failed, has_been_processed := true }

/-- The retry action (src/api/views.py, OrderViewSet.retry, lines 100-133):
    reject unless the order is failed and has been processed; on acceptance
    reset to pending / not-processed and re-enqueue processing.  The Bool is
    true exactly when the retry was accepted and the order re-submitted. -/
def retry (o : OrderRec) : Bool × OrderRec :=
  if o.status ≠ OrderStatus.failed then
    (false, o)
  else if o.has_been_processed = false then
    (false, o)
  else
    (true, { o with status := OrderStatus.pending, has_been_processed := false })

/-- Decimal digit character. -/
def digitChar (n : ℕ) : Char :=
  match n with
  | 0 => '0'
  | 1 => '1'
  | 2 => '2'
  | 3 => '3'
  | 4 => '4'
  | 5 => '5'
  | 6 => '6'
  | 7 => '7'
  | 8 => '8'
  | _ => '9'

/-- Decimal digits of a natural number, most significant first (Python str). -/
def natDigits (n : ℕ) : List Char :=
  if h : n < 10 then [digitChar n]
  else natDigits (n / 10) ++ [digitChar (n % 10)]
termination_by n
decreasing_by simp_wf; omega

/-- Python str() of an integer. -/
def intStr (q : ℤ) : String :=
  if q < 0 then String.mk ('-' :: natDigits q.natAbs)
  else String.mk (natDigits q.natAbs)

/-- Zero-padded two-digit field, as produced by strftime %m %d %H %M %S. -/
def pad2 (n : ℕ) : List Char :=
  if n < 10 then '0' :: natDigits n else natDigits n

/-- The order.created_at.strftime('%Y-%m-%d %H:%M:%S') call of the export
    task (src/core/tasks.py line 100).  %Y prints the year's decimal digits
    (glibc does not zero-pad the year); the other fields are zero-padded to
    two digits. -/
def fmt_timestamp (dt : DateTime) : String :=
  String.mk (natDigits dt.year ++ '-' :: pad2 dt.month ++ '-' :: pad2 dt.day
    ++ ' ' :: pad2 dt.hour ++ ':' :: pad2 dt.minute ++ ':' :: pad2 dt.second)

/-- Database string of an order status (src/core/models.py STATUS_CHOICES). -/
def statusStr : OrderStatus → String
  | OrderStatus.pending => "pending"
  | OrderStatus.processing => "processing"
  | OrderStatus.approved => "approved"
  | OrderStatus.failed => "failed"

/-- Export status values (src/core/models.py, Export.STATUS_CHOICES). -/
inductive ExportStatus
  | pending
  | ready
  | failed
deriving DecidableEq

/-- Export row (src/core/models.py, Export).  The file field holds the
    stored artifact's content when present. -/
structure ExportRec where
  requested_by : String
  status : ExportStatus
  file : Option String
  note : String
deriving DecidableEq

/-- Database state visible to generate_export: the order table as a list of
    rows with primary keys (fixing the query iteration order) and the
    product table. -/
structure ExportDB where
  orders : List (ℕ × OrderRec)
  products : ℕ → Option ProductRec

/-- The queryset Order.objects.filter(id__in=order_ids): every stored order
    row whose id appears in the supplied list, each row at most once. -/
def selected_orders (orders : List (ℕ × OrderRec)) (order_ids : List ℕ) :
    List (ℕ × OrderRec) :=
  orders.filter (fun pr => pr.1 ∈ order_ids)

/-- Header row of the export (src/core/tasks.py line 89). -/
def header_row : List String :=
  ["Reference Code", "Product", "SKU", "Quantity", "Status", "Created By",
   "Company", "Created At"]

/-- Data row built for one order (src/core/tasks.py lines 91-101). -/
def csv_row (o : OrderRec) (p : ProductRec) : List String :=
  [o.reference_code, p.name, p.sku, intStr o.quantity, statusStr o.status,
   o.created_by, p.company, fmt_timestamp o.created_at]

/-- Data rows for a list of selected orders; none when some order's product
    row is missing (the attribute access would raise DoesNotExist). -/
def rows_of (products : ℕ → Option ProductRec) :
    List (ℕ × OrderRec) → Option (List (List String))
  | [] => some []
  | pr :: rest =>
      match products pr.2.product_id, rows_of products rest with
      | some p, some rs => some (csv_row pr.2 p :: rs)
      | _, _ => none

/-- Data rows of the export for the supplied id list. -/
def export_rows (db : ExportDB) (order_ids : List ℕ) :
    Option (List (List String)) :=
  rows_of db.products (selected_orders db.orders order_ids)

/-- Python single-character str.join over a list of strings (as char lists). -/
def joinSep (sep : Char) : List (List Char) → List Char
  | [] => []
  | [r] => r
  | r :: s :: rest => r ++ sep :: joinSep sep (s :: rest)

/-- Cell encoding of the export writer: f-string "{cell}" wrapping, i.e. a
    double quote on each side with no escaping (src/core/tasks.py line 106). -/
def quote_cell (c : List Char) : List Char := '"' :: c ++ ['"']

/-- One line of the artifact: quoted cells joined with ',' (line 106). -/
def encode_record (r : List (List Char)) : List Char :=
  joinSep ',' (r.map quote_cell)

/-- Whole artifact: lines joined with a newline (line 107). -/
def encode_doc (rows : List (List (List Char))) : List Char :=
  joinSep '\n' (rows.map encode_record)

/-- The csv_buffer construction of generate_export (src/core/tasks.py lines
    104-107) applied to a list of rows of string cells. -/
def csv_encode (rows : List (List String)) : String :=
  String.mk (encode_doc (rows.map (fun r => r.map String.data)))

/-- The artifact stored by generate_export for the given id list: header row
    followed by one row per selected order. -/
def export_artifact (db : ExportDB) (order_ids : List ℕ) : Option String :=
  (export_rows db order_ids).map (fun rs => csv_encode (header_row :: rs))

/-- The generate_export task (src/core/tasks.py lines 76-135).  A missing
    export row logs and returns with no writes.  The err argument injects an
    arbitrary exception message raised during generation (storage failure,
    interrupted query, ...): the handler re-fetches the export, marks it
    failed and stores str(e) as the note.  Otherwise the artifact is stored
    and the export becomes ready; a missing product row raises DoesNotExist,
    which the same handler records. -/
def generate_export (export? : Option ExportRec) (db : ExportDB)
    (order_ids : List ℕ) (err : Option String) : Option ExportRec :=
  match export? with
  | none => none
  | some ex =>
      match err with
      | some e => some { ex with status := ExportStatus.failed, note := e }
      | none =>
          match export_artifact db order_ids with
          | some a => some { ex with file := some a, status := ExportStatus.ready }
          | none =>
              some { ex with
                     status := ExportStatus.failed,
                     note := "Product matching query does not exist." }

/-- Characters of a string before its first newline. -/
def first_line (s : String) : String :=
  String.mk (s.data.takeWhile (fun c => c ≠ '\n'))

/-- Spec-side quoted-CSV grammar, content of one quoted field: characters up
    to the closing quote, with a doubled quote read as an escaped quote
    (RFC 4180 quoted fields).  Returns the decoded content and the input
    after the closing quote.  Fuel bounds recursion depth. -/
def parse_content : ℕ → List Char → Option (List Char × List Char)
  | 0, _ => none
  | _ + 1, [] => none
  | fuel + 1, c :: rest =>
      if c = '"' then
        match rest with
        | '"' :: rest2 => (parse_content fuel rest2).map (fun pr => ('"' :: pr.1, pr.2))
        | _ => some ([], rest)
      else
        (parse_content fuel rest).map (fun pr => (c :: pr.1, pr.2))

/-- Spec-side grammar: one field, which must be quoted. -/
def parse_field (fuel : ℕ) : List Char → Option (List Char × List Char)
  | '"' :: rest => parse_content fuel rest
  | _ => none

/-- Spec-side grammar: one record, comma-separated quoted fields. -/
def parse_record : ℕ → List Char → Option (List (List Char) × List Char)
  | 0, _ => none
  | fuel + 1, input =>
      match parse_field fuel input with
      | none => none
      | some (f, rest) =>
          match rest with
          | ',' :: rest2 =>
              match parse_record fuel rest2 with
              | none => none
              | some (fs, rest3) => some (f :: fs, rest3)
          | _ => some ([f], rest)

/-- Spec-side grammar: a document, newline-separated records consuming the
    whole input. -/
def parse_doc : ℕ → List Char → Option (List (List (List Char)))
  | 0, _ => none
  | fuel + 1, input =>
      match parse_record fuel input with
      | none => none
      | some (r, rest) =>
          match rest with
          | [] => some [r]
          | '\n' :: rest2 =>
              match parse_doc fuel rest2 with
              | none => none
              | some rs => some (r :: rs)
          | _ => none

/-- A string is a well-formed quoted-CSV document when the grammar accepts
    it in full. -/
def csv_well_formed (s : String) : Bool :=
  (parse_doc (s.data.length + 1) s.data).isSome

/-- Character pattern matching: 'D' stands for a decimal digit, every other
    mask character stands for itself. -/
def char_matches (m c : Char) : Bool :=
  if m = 'D' then c.isDigit else m = c

/-- Match a character list against a mask of the same length. -/
def matches_mask : List Char → List Char → Bool
  | [], [] => true
  | m :: ms, c :: cs => char_matches m c && matches_mask ms cs
  | _, _ => false

/-- Mask of the YYYY-MM-DD HH:MM:SS timestamp format. -/
def ts_mask : List Char := "DDDD-DD-DD DD:DD:DD".data

/-- A string is in timestamp format when it matches the mask. -/
def ts_matches (s : String) : Bool := matches_mask ts_mask s.data

/-- Datetime components within the ranges a real datetime satisfies (year
    with four decimal digits, two-digit remaining fields). -/
def dt_in_range (dt : DateTime) : Bool :=
  decide (1000 ≤ dt.year) && decide (dt.year < 10000) && decide (dt.month < 100)
    && decide (dt.day < 100) && decide (dt.hour < 100) && decide (dt.minute < 100)
    && decide (dt.second < 100)

/-- Sample creation timestamp used by concrete witnesses. -/
def sample_dt : DateTime :=
  { year := 2024, month := 5, day := 7, hour := 9, minute := 30, second := 0 }

/-- Sample order used by concrete witnesses. -/
def sample_order : OrderRec :=
  { reference_code := "ORD-1A2B3C4D", product_id := 1, quantity := 3,
    status := OrderStatus.pending, created_by := "alice",
    has_been_processed := false, created_at := sample_dt }

/-- Sample product used by concrete witnesses. -/
def sample_product : ProductRec :=
  { sku := "SKU-1", name := "Widget", stock_quantity := 10,
    company := "Acme", is_active := true }

/-- Sample database used by concrete witnesses. -/
def sample_db : DB :=
  { orders := fun i => if i = 1 then some sample_order else none,
    products := fun i => if i = 1 then some sample_product else none }

/-- Sample export-side database used by concrete witnesses. -/
def sample_export_db : ExportDB :=
  { orders := [(1, sample_order)],
    products := fun i => if i = 1 then some sample_product else none }

/-- Sample export row used by concrete witnesses. -/
def sample_export : ExportRec :=
  { requested_by := "alice", status := ExportStatus.pending,
    file := none, note := "" }

/-- Order row including the auto-managed timestamps (src/core/models.py,
    Order): created_at is auto_now_add (set at creation, never on save) and
    updated_at is auto_now, overwritten by every order.save().  OrderRec is
    this row without updated_at; the frame claim needs the full row. -/
structure OrderRow where
  reference_code : String
  product_id : ℕ
  quantity : ℤ
  status : OrderStatus
  created_by : String
  has_been_processed : Bool
  created_at : DateTime
  updated_at : DateTime
deriving DecidableEq

/-- Product row including the auto-managed timestamps (src/core/models.py,
    Product): created_at is auto_now_add and updated_at is auto_now,
    overwritten by every product.save(). -/
structure ProductRow where
  sku : String
  name : String
  stock_quantity : ℤ
  company : String
  is_active : Bool
  created_at : DateTime
  updated_at : DateTime
deriving DecidableEq

/-- Database state with the full rows, timestamps included. -/
structure TDB where
  orders : ℕ → Option OrderRow
  products : ℕ → Option ProductRow

/-- Persist a full order row (order.save()). -/
def TDB.setOrder (db : TDB) (i : ℕ) (o : OrderRow) : TDB :=
  { db with orders := fun j => if j = i then some o else db.orders j }

/-- Persist a full product row (product.save()). -/
def TDB.setProduct (db : TDB) (i : ℕ) (p : ProductRow) : TDB :=
  { db with products := fun j => if j = i then some p else db.products j }

/-- The process_order task over full rows (src/core/tasks.py lines 14-73):
    the same control flow as process_order, with each save additionally
    stamping the row's updated_at with the clock reading, as Django's
    auto_now does.  The now argument is the clock reading stamped by the
    run's saves (the saves of one run are modelled as sharing one reading;
    only the fact that updated_at is overwritten matters here). -/
def process_order_at (order_id : ℕ) (approve : Bool) (now : DateTime)
    (db : TDB) : TDB :=
  match db.orders order_id with
  | none => db
  | some o =>
      let db1 := db.setOrder order_id
        { o with status := OrderStatus.processing, updated_at := now }
      if approve then
        -- saving the order leaves products untouched, so the locked read of
        -- the product row sees db's product table
        match db.products o.product_id with
        | none => db1
        | some p =>
            if p.stock_quantity ≥ o.quantity then
              let db2 := db1.setProduct o.product_id
                { p with
                  stock_quantity := p.stock_quantity - o.quantity,
                  updated_at := now }
              db2.setOrder order_id
                { o with
                  status := OrderStatus.approved,
                  has_been_processed := true,
                  updated_at := now }
            else
              db1.setOrder order_id
                { o with
                  status := OrderStatus.failed,
                  has_been_processed := true,
                  updated_at := now }
      else
        db1.setOrder order_id
          { o with
            status := OrderStatus.failed,
            has_been_processed := true,
            updated_at := now }

/-- Forget an order row's updated_at, leaving the OrderRec fields. -/
def eraseOrder (o : OrderRow) : OrderRec :=
  { reference_code := o.reference_code, product_id := o.product_id,
    quantity := o.quantity, status := o.status, created_by := o.created_by,
    has_been_processed := o.has_been_processed, created_at := o.created_at }

/-- Forget a product row's timestamps, leaving the ProductRec fields. -/
def eraseProduct (p : ProductRow) : ProductRec :=
  { sku := p.sku, name := p.name, stock_quantity := p.stock_quantity,
    company := p.company, is_active := p.is_active }

/-- Forget all timestamps of a full database state. -/
def eraseTDB (db : TDB) : DB :=
  { orders := fun i => (db.orders i).map eraseOrder,
    products := fun i => (db.products i).map eraseProduct }

/-- A later clock reading used by concrete witnesses. -/
def later_dt : DateTime :=
  { year := 2024, month := 5, day := 8, hour := 10, minute := 0, second := 0 }

/-- Sample full order row used by concrete witnesses. -/
def sample_order_row : OrderRow :=
  { reference_code := "ORD-1A2B3C4D", product_id := 1, quantity := 3,
    status := OrderStatus.pending, created_by := "alice",
    has_been_processed := false, created_at := sample_dt,
    updated_at := sample_dt }

/-- Sample full product row used by concrete witnesses. -/
def sample_product_row : ProductRow :=
  { sku := "SKU-1", name := "Widget", stock_quantity := 10,
    company := "Acme", is_active := true, created_at := sample_dt,
    updated_at := sample_dt }

/-- Sample full database used by concrete witnesses. -/
def sample_tdb : TDB :=
  { orders := fun i => if i = 1 then some sample_order_row else none,
    products := fun i => if i = 1 then some sample_product_row else none }

/-- Final stock after a run of reservations is the initial stock minus the
    total successfully reserved quantity. -/
theorem run_reservations_stock_eq (stock : ℤ) (qs : List ℤ) :
    (run_reservations stock qs).2
      = stock - successful_total qs (run_reservations stock qs).1 := by
  induction qs generalizing stock with
  | nil => simp [run_reservations, successful_total]
  | cons q qs ih =>
      simp only [run_reservations, successful_total]
      by_cases h : stock ≥ q
      · simp only [tryReserve, if_pos h]
        rw [ih (stock - q)]
        simp only [if_true]
        ring
  -- failed attempt: stock unchanged
      · simp only [tryReserve, if_neg h]
        rw [ih stock]
        simp only [Bool.false_eq_true, if_false]
        ring

/-- Stock stays nonnegative throughout a run of reservations, provided it
    starts nonnegative: a successful attempt requires stock ≥ quantity and a
    failed one leaves stock unchanged. -/
theorem run_reservations_nonneg (stock : ℤ) (qs : List ℤ) (h : 0 ≤ stock) :
    0 ≤ (run_reservations stock qs).2 := by
  induction qs generalizing stock with
  | nil => simpa [run_reservations] using h
  | cons q qs ih =>
      simp only [run_reservations]
      by_cases hq : stock ≥ q
      · simp only [tryReserve, if_pos hq]
        exact ih (stock - q) (by omega)
      · simp only [tryReserve, if_neg hq]
        exact ih stock h

/-- Calling allow_request with a cached bucket refills it to
    min(tokens + elapsed * rate, capacity) and admits when that is at least
    one token, storing the refilled count minus one. -/
theorem allow_request_admits (cap R now : ℚ) (b : Bucket)
    (h : 1 ≤ min (b.tokens + (now - b.last_update) * R) cap) :
    allow_request cap R now (some b)
      = (true, { tokens := min (b.tokens + (now - b.last_update) * R) cap - 1,
                 last_update := now }) := by
  simp only [allow_request, if_pos h]

/-- Calling allow_request with a cached bucket whose refilled count is below
    one token denies the call and stores the refilled count unchanged. -/
theorem allow_request_deny (cap R now : ℚ) (b : Bucket)
    (h : min (b.tokens + (now - b.last_update) * R) cap < 1) :
    allow_request cap R now (some b)
      = (false, { tokens := min (b.tokens + (now - b.last_update) * R) cap,
                  last_update := now }) := by
  simp only [allow_request, if_neg (not_le.mpr h)]

/-- A burst of n calls at the bucket's own timestamp (no refill time) is
    fully admitted when the bucket holds at least n tokens, leaving n fewer
    tokens. -/
theorem run_rapid (cap R q t : ℚ) (n : ℕ) (rest : List ℚ)
    (hq1 : (n : ℚ) ≤ q) (hq2 : q ≤ cap) :
    run_calls cap R (some { tokens := q, last_update := t })
        (List.replicate n t ++ rest)
      = (List.replicate n true
          ++ (run_calls cap R (some { tokens := q - n, last_update := t }) rest).1,
         (run_calls cap R (some { tokens := q - n, last_update := t }) rest).2) := by
  induction n generalizing q with
  | zero => simp
  | succ n ih =>
      have hn : (0 : ℚ) ≤ n := Nat.cast_nonneg n
      have hcast : ((n + 1 : ℕ) : ℚ) = (n : ℚ) + 1 := by push_cast; ring
      have h1 : (1 : ℚ) ≤ q := by rw [hcast] at hq1; linarith
      have hadm : 1 ≤ min (q + (t - t) * R) cap := by
        rw [sub_self, zero_mul, add_zero, min_eq_left hq2]; exact h1
      rw [List.replicate_succ, List.cons_append]
      simp only [run_calls]
      rw [allow_request_admits cap R t { tokens := q, last_update := t } hadm]
      simp only [sub_self, zero_mul, add_zero, min_eq_left hq2]
      rw [ih (q - 1) (by rw [hcast] at hq1; linarith) (by linarith)]
      have hq' : q - 1 - (n : ℚ) = q - ((n + 1 : ℕ) : ℚ) := by rw [hcast]; ring
      rw [hq']
      simp [List.replicate_succ]

/-- Burst scenario for the token bucket, starting from a fresh identity:
    C + 1 calls in immediate succession (all at time 0) followed by two calls
    after a wait of w seconds.  With 1 ≤ w * R < 2 the results are: the first
    C calls admitted, the (C+1)th denied, the call after the wait admitted,
    and one further immediate call denied again. -/
theorem token_bucket_burst (C : ℕ) (R w : ℚ) (hC : 1 ≤ C)
    (hw1 : 1 ≤ w * R) (hw2 : w * R < 2) :
    (run_calls (C : ℚ) R none (List.replicate (C + 1) 0 ++ [w, w])).1
      = List.replicate C true ++ [false, true, false] := by
  obtain ⟨k, rfl⟩ : ∃ k, C = k + 1 := ⟨C - 1, by omega⟩
  have hcap1 : (1 : ℚ) ≤ ((k + 1 : ℕ) : ℚ) := by push_cast; linarith [Nat.cast_nonneg (α := ℚ) k]
  have hsplit : List.replicate (k + 1 + 1) (0 : ℚ) ++ [w, w]
      = 0 :: (List.replicate k 0 ++ (0 :: [w, w])) := by
    rw [List.replicate_succ, List.replicate_succ']
    simp
  rw [hsplit]
  simp only [run_calls]
  have hfresh : allow_request ((k + 1 : ℕ) : ℚ) R 0 none
      = (true, { tokens := ((k + 1 : ℕ) : ℚ) - 1, last_update := 0 }) := rfl
  rw [hfresh]
  rw [run_rapid ((k + 1 : ℕ) : ℚ) R (((k + 1 : ℕ) : ℚ) - 1) 0 k (0 :: [w, w])
        (by push_cast; linarith) (by linarith)]
  have hz : ((k + 1 : ℕ) : ℚ) - 1 - (k : ℚ) = 0 := by push_cast; ring
  rw [hz]
  -- the (C+1)th immediate call: zero tokens, denied
  have hdeny : allow_request ((k + 1 : ℕ) : ℚ) R 0
      (some { tokens := 0, last_update := 0 }) =
      (false, { tokens := 0, last_update := 0 }) := by
    have h0 : min ((0 : ℚ) + (0 - 0) * R) ((k + 1 : ℕ) : ℚ) = 0 := by
      rw [sub_self, zero_mul, add_zero, min_eq_left (by linarith)]
    rw [allow_request_deny _ _ _ _ (by rw [h0]; norm_num)]
    rw [h0]
  -- the call after the wait: refilled to min (w * R) capacity ≥ 1, admitted
  have hadmits : allow_request ((k + 1 : ℕ) : ℚ) R w
      (some { tokens := 0, last_update := 0 }) =
      (true, { tokens := min (w * R) ((k + 1 : ℕ) : ℚ) - 1, last_update := w }) := by
    have h1 : (0 : ℚ) + (w - 0) * R = w * R := by ring
    rw [allow_request_admits _ _ _ _ (by rw [h1]; exact le_min hw1 hcap1)]
    rw [h1]
  -- one further immediate call: fewer than one token remains, denied
  have hdeny2 : (allow_request ((k + 1 : ℕ) : ℚ) R w
      (some { tokens := min (w * R) ((k + 1 : ℕ) : ℚ) - 1, last_update := w })).1
      = false := by
    have hm2 : min (w * R) ((k + 1 : ℕ) : ℚ) - 1 < 1 := by
      have := min_le_left (w * R) ((k + 1 : ℕ) : ℚ)
      linarith
    have hmc : min (w * R) ((k + 1 : ℕ) : ℚ) - 1 ≤ ((k + 1 : ℕ) : ℚ) := by
      have := min_le_right (w * R) ((k + 1 : ℕ) : ℚ)
      linarith
    have harg : min ((min (w * R) ((k + 1 : ℕ) : ℚ) - 1) + (w - w) * R) ((k + 1 : ℕ) : ℚ)
        = min (w * R) ((k + 1 : ℕ) : ℚ) - 1 := by
      rw [sub_self, zero_mul, add_zero, min_eq_left hmc]
    rw [allow_request_deny _ _ _ _ (by rw [harg]; exact hm2)]
  simp only [run_calls, hdeny, hadmits]
  rw [List.replicate_succ]
  push_cast at hdeny2
  simp [hdeny2]

/-- Saving an order leaves the product table unchanged. -/
theorem setOrder_products (db : DB) (i : ℕ) (o : OrderRec) :
    (db.setOrder i o).products = db.products := rfl

/-- Saving an order stores it under its key. -/
theorem setOrder_orders_self (db : DB) (i : ℕ) (o : OrderRec) :
    (db.setOrder i o).orders i = some o := by
  simp [DB.setOrder]

/-- Saving an order leaves other orders unchanged. -/
theorem setOrder_orders_other (db : DB) (i j : ℕ) (o : OrderRec) (hj : j ≠ i) :
    (db.setOrder i o).orders j = db.orders j := by
  simp [DB.setOrder, hj]

/-- Saving a product leaves the order table unchanged. -/
theorem setProduct_orders (db : DB) (i : ℕ) (p : ProductRec) :
    (db.setProduct i p).orders = db.orders := rfl

/-- Saving a product stores it under its key. -/
theorem setProduct_products_self (db : DB) (i : ℕ) (p : ProductRec) :
    (db.setProduct i p).products i = some p := by
  simp [DB.setProduct]

/-- Saving a product leaves other products unchanged. -/
theorem setProduct_products_other (db : DB) (i j : ℕ) (p : ProductRec) (hj : j ≠ i) :
    (db.setProduct i p).products j = db.products j := by
  simp [DB.setProduct, hj]

/-- C1: For every product and every sequence of reservation attempts against
    it (each a check-and-decrement executed under the product-row lock in the
    approval branch of order processing), a single attempt succeeds if and
    only if the current stock is at least the requested quantity, a
    successful attempt decrements stock by exactly that quantity, a failed
    attempt leaves stock unchanged, and therefore the total quantity of
    successful reservations never exceeds the stock present at the start of
    the sequence and stock never becomes negative. -/
theorem claim_C1_reservation_safety (stock : ℤ) (qs : List ℤ) (h0 : 0 ≤ stock) :
    (∀ s q, (tryReserve s q).1 = true ↔ s ≥ q) ∧
    (∀ s q, s ≥ q → (tryReserve s q).2 = s - q) ∧
    (∀ s q, ¬ s ≥ q → (tryReserve s q).2 = s) ∧
    successful_total qs (run_reservations stock qs).1 ≤ stock ∧
    0 ≤ (run_reservations stock qs).2 := by
  refine ⟨?_, ?_, ?_, ?_, run_reservations_nonneg stock qs h0⟩
  · intro s q
    constructor
    · intro ht
      by_contra hc
      simp [tryReserve, hc] at ht
    · intro hge
      simp [tryReserve, hge]
  · intro s q hge
    simp [tryReserve, hge]
  · intro s q hlt
    simp [tryReserve, hlt]
  · have h1 := run_reservations_stock_eq stock qs
    have h2 := run_reservations_nonneg stock qs h0
    omega

/-- Witness for C1 at the spec's own scenario: stock 10 and two attempts of
    quantity 6, serialized by the row lock. -/
theorem claim_C1_reservation_safety_witness :
    successful_total [6, 6] (run_reservations 10 [6, 6]).1 ≤ 10 ∧
    0 ≤ (run_reservations 10 [6, 6]).2 :=
  ⟨(claim_C1_reservation_safety 10 [6, 6] (by decide)).2.2.2.1,
   (claim_C1_reservation_safety 10 [6, 6] (by decide)).2.2.2.2⟩

/-- C3: For every order that exists when its processing job runs and whose
    run completes without an unexpected exception, at the end of the run the
    order has has_been_processed = true and status approved or failed, never
    pending or processing, regardless of whether the outcome was approval,
    random failure, or insufficient stock. -/
theorem claim_C3_terminal_state (db : DB) (order_id : ℕ) (approve : Bool)
    (o : OrderRec) (horder : db.orders order_id = some o)
    (hnoexc : approve = true → (db.products o.product_id).isSome = true) :
    ∃ o', (process_order order_id approve db).orders order_id = some o' ∧
      o'.has_been_processed = true ∧
      (o'.status = OrderStatus.approved ∨ o'.status = OrderStatus.failed) := by
  cases approve with
  | false =>
      simp only [process_order, horder, Bool.false_eq_true, if_false]
      exact ⟨_, setOrder_orders_self _ _ _, rfl, Or.inr rfl⟩
  | true =>
      obtain ⟨p, hp⟩ := Option.isSome_iff_exists.mp (hnoexc rfl)
      simp only [process_order, horder, hp, reduceIte]
      by_cases hstock : p.stock_quantity ≥ o.quantity
      · simp only [if_pos hstock]
        exact ⟨_, setOrder_orders_self _ _ _, rfl, Or.inl rfl⟩
      · simp only [if_neg hstock]
        exact ⟨_, setOrder_orders_self _ _ _, rfl, Or.inr rfl⟩

/-- Witness for C3: the sample order exists and its processing run (approval
    decision, sufficient stock) ends approved with the flag set. -/
theorem claim_C3_terminal_state_witness :
    ∃ o', (process_order 1 true sample_db).orders 1 = some o' ∧
      o'.has_been_processed = true ∧
      (o'.status = OrderStatus.approved ∨ o'.status = OrderStatus.failed) :=
  claim_C3_terminal_state sample_db 1 true sample_order (by rfl) (fun _ => by rfl)

/-- C5: The retry action on an order is accepted if and only if the order's
    status is failed and has_been_processed is true; on acceptance it resets
    status to pending and has_been_processed to false and re-submits the
    order for processing; on rejection it leaves the order's state entirely
    unchanged. -/
theorem claim_C5_retry (o : OrderRec) :
    ((retry o).1 = true ↔ (o.status = OrderStatus.failed ∧ o.has_been_processed = true)) ∧
    ((retry o).1 = true →
      (retry o).2 = { o with status := OrderStatus.pending, has_been_processed := false }) ∧
    ((retry o).1 = false → (retry o).2 = o) := by
  unfold retry
  by_cases h1 : o.status = OrderStatus.failed
  · cases h2 : o.has_been_processed with
    | false => simp [h1, h2]
    | true => simp [h1, h2]
  · simp [h1]

/-- Witness for C5: a failed, already-processed order is accepted for retry
    and reset to pending with the flag cleared. -/
theorem claim_C5_retry_witness :
    ((retry { sample_order with
              status := OrderStatus.failed,
              has_been_processed := true }).1 = true) ∧
    (retry { sample_order with
             status := OrderStatus.failed,
             has_been_processed := true }).2
      = { sample_order with
          status := OrderStatus.pending,
          has_been_processed := false } := by
  have h := claim_C5_retry { sample_order with
    status := OrderStatus.failed, has_been_processed := true }
  have hacc := h.1.mpr ⟨rfl, rfl⟩
  exact ⟨hacc, h.2.1 hacc⟩

/-- Saving a full order row leaves the product table unchanged. -/
theorem setOrderRow_products (db : TDB) (i : ℕ) (o : OrderRow) :
    (db.setOrder i o).products = db.products := rfl

/-- Saving a full order row stores it under its key. -/
theorem setOrderRow_orders_self (db : TDB) (i : ℕ) (o : OrderRow) :
    (db.setOrder i o).orders i = some o := by
  simp [TDB.setOrder]

/-- Saving a full order row leaves other orders unchanged. -/
theorem setOrderRow_orders_other (db : TDB) (i j : ℕ) (o : OrderRow) (hj : j ≠ i) :
    (db.setOrder i o).orders j = db.orders j := by
  simp [TDB.setOrder, hj]

/-- Saving a full product row leaves the order table unchanged. -/
theorem setProductRow_orders (db : TDB) (i : ℕ) (p : ProductRow) :
    (db.setProduct i p).orders = db.orders := rfl

/-- Saving a full product row stores it under its key. -/
theorem setProductRow_products_self (db : TDB) (i : ℕ) (p : ProductRow) :
    (db.setProduct i p).products i = some p := by
  simp [TDB.setProduct]

/-- Saving a full product row leaves other products unchanged. -/
theorem setProductRow_products_other (db : TDB) (i j : ℕ) (p : ProductRow) (hj : j ≠ i) :
    (db.setProduct i p).products j = db.products j := by
  simp [TDB.setProduct, hj]

/-- Erasing timestamps commutes with saving an order row. -/
theorem eraseTDB_setOrder (db : TDB) (i : ℕ) (o : OrderRow) :
    eraseTDB (db.setOrder i o) = (eraseTDB db).setOrder i (eraseOrder o) := by
  unfold eraseTDB TDB.setOrder DB.setOrder
  congr 1
  funext j
  by_cases hj : j = i
  · simp [hj]
  · simp [hj]

/-- Erasing timestamps commutes with saving a product row. -/
theorem eraseTDB_setProduct (db : TDB) (i : ℕ) (p : ProductRow) :
    eraseTDB (db.setProduct i p) = (eraseTDB db).setProduct i (eraseProduct p) := by
  unfold eraseTDB TDB.setProduct DB.setProduct
  congr 1
  funext j
  by_cases hj : j = i
  · simp [hj]
  · simp [hj]

/-- The timestamped task refines the timestamp-free one: forgetting the
    auto-managed updated_at fields turns a run of process_order_at into the
    corresponding run of process_order, so the two models agree on every
    field the other claims are about. -/
theorem process_order_at_erase (order_id : ℕ) (approve : Bool) (now : DateTime)
    (db : TDB) :
    eraseTDB (process_order_at order_id approve now db)
      = process_order order_id approve (eraseTDB db) := by
  have horders : (eraseTDB db).orders order_id = (db.orders order_id).map eraseOrder := rfl
  cases horder : db.orders order_id with
  | none =>
      simp only [process_order_at, horder]
      simp only [process_order, horders, horder, Option.map_none']
  | some o =>
      have hprod : (eraseTDB db).products (eraseOrder o).product_id
          = (db.products o.product_id).map eraseProduct := rfl
      cases approve with
      | false =>
          simp only [process_order_at, horder, Bool.false_eq_true, if_false]
          simp only [process_order, horders, horder, Option.map_some',
            Bool.false_eq_true, if_false]
          rw [eraseTDB_setOrder, eraseTDB_setOrder]
          rfl
      | true =>
          cases hp : db.products o.product_id with
          | none =>
              simp only [process_order_at, horder, hp, reduceIte]
              simp only [process_order, horders, horder, Option.map_some', reduceIte,
                hprod, hp, Option.map_none']
              rw [eraseTDB_setOrder]
              rfl
          | some p =>
              simp only [process_order_at, horder, hp, reduceIte]
              simp only [process_order, horders, horder, Option.map_some', reduceIte,
                hprod, hp, Option.map_some']
              by_cases hstock : p.stock_quantity ≥ o.quantity
              · rw [if_pos hstock, if_pos (show (eraseProduct p).stock_quantity
                    ≥ (eraseOrder o).quantity from hstock)]
                rw [eraseTDB_setOrder, eraseTDB_setProduct, eraseTDB_setOrder]
                rfl
              · rw [if_neg hstock, if_neg (show ¬ (eraseProduct p).stock_quantity
                    ≥ (eraseOrder o).quantity from hstock)]
                rw [eraseTDB_setOrder, eraseTDB_setOrder]
                rfl

/-- C9 (amended): A run of process_order mutates at most the referenced
    order's status, has_been_processed and auto-managed updated_at fields
    and, only in the case where the approval decision is taken and stock is
    sufficient, the referenced product's stock_quantity and updated_at
    (Django stamps updated_at on every save, the fields being auto_now);
    every other field of that order and product, every other product, and
    every other order are left unchanged by the run. -/
theorem claim_C9_frame (db : TDB) (order_id : ℕ) (approve : Bool) (now : DateTime) :
    (∀ j, j ≠ order_id →
      (process_order_at order_id approve now db).orders j = db.orders j) ∧
    (db.orders order_id = none → process_order_at order_id approve now db = db) ∧
    (∀ o, db.orders order_id = some o →
      (∃ o', (process_order_at order_id approve now db).orders order_id = some o' ∧
        o'.reference_code = o.reference_code ∧ o'.product_id = o.product_id ∧
        o'.quantity = o.quantity ∧ o'.created_by = o.created_by ∧
        o'.created_at = o.created_at) ∧
      (∀ j, (process_order_at order_id approve now db).products j = db.products j ∨
        (j = o.product_id ∧ approve = true ∧
          ∃ p, db.products j = some p ∧ o.quantity ≤ p.stock_quantity ∧
            (process_order_at order_id approve now db).products j
              = some { p with
                       stock_quantity := p.stock_quantity - o.quantity,
                       updated_at := now }))) := by
  cases horder : db.orders order_id with
  | none =>
      refine ⟨?_, fun _ => by simp [process_order_at, horder], ?_⟩
      · intro j _
        simp [process_order_at, horder]
      · intro o ho
        exact absurd ho (by simp)
  | some o =>
      have hframe : ∀ j, j ≠ order_id →
          (process_order_at order_id approve now db).orders j = db.orders j := by
        intro j hj
        cases approve with
        | false =>
            simp only [process_order_at, horder, Bool.false_eq_true, if_false]
            rw [setOrderRow_orders_other _ _ _ _ hj]
            exact setOrderRow_orders_other _ _ _ _ hj
        | true =>
            cases hp : db.products o.product_id with
            | none =>
                simp only [process_order_at, horder, hp, reduceIte]
                exact setOrderRow_orders_other _ _ _ _ hj
            | some p =>
                simp only [process_order_at, horder, hp, reduceIte]
                by_cases hstock : p.stock_quantity ≥ o.quantity
                · simp only [if_pos hstock]
                  rw [setOrderRow_orders_other _ _ _ _ hj]
                  rw [setProductRow_orders]
                  exact setOrderRow_orders_other _ _ _ _ hj
                · simp only [if_neg hstock]
                  rw [setOrderRow_orders_other _ _ _ _ hj]
                  exact setOrderRow_orders_other _ _ _ _ hj
      refine ⟨hframe, ?_, ?_⟩
      · intro hnone
        exact absurd hnone (by simp)
      · intro o₀ ho₀
        injection ho₀ with ho₀
        subst ho₀
        constructor
        · -- the referenced order keeps all fields except status, the flag
          -- and the auto_now timestamp
          cases approve with
          | false =>
              simp only [process_order_at, horder, Bool.false_eq_true, if_false]
              exact ⟨_, setOrderRow_orders_self _ _ _, rfl, rfl, rfl, rfl, rfl⟩
          | true =>
              cases hp : db.products o.product_id with
              | none =>
                  simp only [process_order_at, horder, hp, reduceIte]
                  exact ⟨_, setOrderRow_orders_self _ _ _, rfl, rfl, rfl, rfl, rfl⟩
              | some p =>
                  simp only [process_order_at, horder, hp, reduceIte]
                  by_cases hstock : p.stock_quantity ≥ o.quantity
                  · simp only [if_pos hstock]
                    exact ⟨_, setOrderRow_orders_self _ _ _, rfl, rfl, rfl, rfl, rfl⟩
                  · simp only [if_neg hstock]
                    exact ⟨_, setOrderRow_orders_self _ _ _, rfl, rfl, rfl, rfl, rfl⟩
        · -- products: unchanged except the stamped stock deduction on approval
          intro j
          cases approve with
          | false =>
              left
              simp only [process_order_at, horder, Bool.false_eq_true, if_false]
              rfl
          | true =>
              cases hp : db.products o.product_id with
              | none =>
                  left
                  simp only [process_order_at, horder, hp, reduceIte]
                  rfl
              | some p =>
                  by_cases hstock : p.stock_quantity ≥ o.quantity
                  · by_cases hj : j = o.product_id
                    · right
                      refine ⟨hj, rfl, p, by rw [hj]; exact hp, hstock, ?_⟩
                      simp only [process_order_at, horder, hp, reduceIte, if_pos hstock]
                      rw [setOrderRow_products, hj]
                      exact setProductRow_products_self _ _ _
                    · left
                      simp only [process_order_at, horder, hp, reduceIte, if_pos hstock]
                      rw [setOrderRow_products]
                      rw [setProductRow_products_other _ _ _ _ hj]
                      rfl
                  · left
                    simp only [process_order_at, horder, hp, reduceIte, if_neg hstock]
                    rfl

/-- Witness for C9 at the sample database: processing order 1 with an
    approval decision leaves the unrelated order key 2 unchanged. -/
theorem claim_C9_frame_witness :
    (process_order_at 1 true later_dt sample_tdb).orders 2 = sample_tdb.orders 2 :=
  (claim_C9_frame sample_tdb 1 true later_dt).1 2 (by decide)

/-- C9 counterexample to the claim as stated: Order.updated_at and
    Product.updated_at are auto_now fields, stamped by every save, so a run
    of order processing at a later clock reading changes both rows'
    updated_at — a field other than status, has_been_processed and
    stock_quantity — contradicting "every other field of that order and
    product ... left unchanged". -/
theorem claim_C9_counterexample :
    sample_tdb.orders 1 = some sample_order_row ∧
    sample_tdb.products 1 = some sample_product_row ∧
    (∃ o', (process_order_at 1 true later_dt sample_tdb).orders 1 = some o' ∧
      o'.updated_at ≠ sample_order_row.updated_at) ∧
    (∃ p', (process_order_at 1 true later_dt sample_tdb).products 1 = some p' ∧
      p'.updated_at ≠ sample_product_row.updated_at) := by
  refine ⟨rfl, rfl,
    ⟨{ sample_order_row with
       status := OrderStatus.approved,
       has_been_processed := true,
       updated_at := later_dt }, by decide, by decide⟩,
    ⟨{ sample_product_row with
       stock_quantity := 7,
       updated_at := later_dt }, by decide, by decide⟩⟩

/-- C4: Every rate-limit bucket's stored token count always satisfies
    0 ≤ tokens ≤ capacity: a fresh bucket is initialized with capacity − 1
    tokens, refill computes min(capacity, storedTokens + elapsed * rate), an
    admitted call stores that value minus 1, and a denied call stores the
    refilled value with no deduction. -/
theorem claim_C4_bucket_invariant (cap R now : ℚ) (bucket? : Option Bucket)
    (hcap : 1 ≤ cap) (hR : 0 ≤ R)
    (hinv : ∀ b ∈ bucket?, 0 ≤ b.tokens ∧ b.tokens ≤ cap ∧ b.last_update ≤ now) :
    (0 ≤ (allow_request cap R now bucket?).2.tokens ∧
      (allow_request cap R now bucket?).2.tokens ≤ cap) ∧
    allow_request cap R now none
      = (true, { tokens := cap - 1, last_update := now }) ∧
    (∀ b ∈ bucket?,
      ((allow_request cap R now (some b)).1 = true →
        (allow_request cap R now (some b)).2
          = { tokens := min (b.tokens + (now - b.last_update) * R) cap - 1,
              last_update := now }) ∧
      ((allow_request cap R now (some b)).1 = false →
        (allow_request cap R now (some b)).2
          = { tokens := min (b.tokens + (now - b.last_update) * R) cap,
              last_update := now })) := by
  refine ⟨?_, rfl, ?_⟩
  · cases bucket? with
    | none =>
        constructor
        · show 0 ≤ cap - 1
          linarith
        · show cap - 1 ≤ cap
          linarith
    | some b =>
        obtain ⟨hb0, hbc, hbt⟩ := hinv b rfl
        have hrefill0 : 0 ≤ min (b.tokens + (now - b.last_update) * R) cap := by
          have : 0 ≤ (now - b.last_update) * R :=
            mul_nonneg (by linarith) hR
          exact le_min (by linarith) (by linarith)
        have hrefillc : min (b.tokens + (now - b.last_update) * R) cap ≤ cap :=
          min_le_right _ _
        by_cases hge : 1 ≤ min (b.tokens + (now - b.last_update) * R) cap
        · rw [allow_request_admits cap R now b hge]
          constructor
          · show 0 ≤ min (b.tokens + (now - b.last_update) * R) cap - 1
            linarith
          · show min (b.tokens + (now - b.last_update) * R) cap - 1 ≤ cap
            linarith
        · rw [allow_request_deny cap R now b (not_le.mp hge)]
          exact ⟨hrefill0, hrefillc⟩
  · intro b _
    constructor
    · intro hadm
      by_cases hge : 1 ≤ min (b.tokens + (now - b.last_update) * R) cap
      · rw [allow_request_admits cap R now b hge]
      · rw [allow_request_deny cap R now b (not_le.mp hge)] at hadm
        exact absurd hadm (by simp)
    · intro hden
      by_cases hge : 1 ≤ min (b.tokens + (now - b.last_update) * R) cap
      · rw [allow_request_admits cap R now b hge] at hden
        exact absurd hden (by simp)
      · rw [allow_request_deny cap R now b (not_le.mp hge)]

/-- Witness for C4 at the default limiter configuration (capacity 100,
    refill 10/60 tokens per second) with a cached bucket of 3 tokens last
    updated 3 seconds ago. -/
theorem claim_C4_bucket_invariant_witness :
    0 ≤ (allow_request 100 (10 / 60) 5 (some { tokens := 3, last_update := 2 })).2.tokens ∧
    (allow_request 100 (10 / 60) 5 (some { tokens := 3, last_update := 2 })).2.tokens ≤ 100 :=
  (claim_C4_bucket_invariant 100 (10 / 60) 5 (some { tokens := 3, last_update := 2 })
    (by norm_num) (by norm_num)
    (by intro b hb
        simp only [Option.mem_def, Option.some.injEq] at hb
        subst hb
        norm_num)).1

/-- C2 (amended): Starting from a fresh (absent or expired) bucket for an
    identity, with capacity C ≥ 1 and refill rate R tokens/second, C calls to
    the rate limiter in immediate succession are all admitted, the (C+1)th
    call is denied, and after waiting w seconds with 1/R ≤ w < 2/R (i.e.
    1 ≤ w·R < 2) exactly one further call is admitted: the first call after
    the wait is admitted and the next immediate call is denied (e.g. capacity
    50, refill 50/60 tokens/sec: 50 rapid calls admitted, the 51st denied,
    and a 1.2-second wait admits exactly one more). -/
theorem claim_C2_token_bucket (C : ℕ) (R w : ℚ) (hC : 1 ≤ C)
    (hw1 : 1 ≤ w * R) (hw2 : w * R < 2) :
    (run_calls (C : ℚ) R none (List.replicate (C + 1) 0 ++ [w, w])).1
      = List.replicate C true ++ [false, true, false] :=
  token_bucket_burst C R w hC hw1 hw2

/-- Witness for C2 at the spec's scenario: capacity 50, refill 50/60
    tokens/second, wait 1.2 seconds (6/5 = 1/R exactly). -/
theorem claim_C2_token_bucket_witness :
    (run_calls ((50 : ℕ) : ℚ) (50 / 60) none
        (List.replicate (50 + 1) 0 ++ [6 / 5, 6 / 5])).1
      = List.replicate 50 true ++ [false, true, false] :=
  claim_C2_token_bucket 50 (50 / 60) (6 / 5) (by norm_num) (by norm_num) (by norm_num)

/-- C2 counterexample to the claim as stated: with capacity 2 and refill
    rate 1 token/second, a wait of 2 seconds is at least 1/R seconds, yet
    after the wait two further calls are admitted, not exactly one — the
    sequence of decisions is [true, true, false, true, true], not
    [true, true, false, true, false]. -/
theorem claim_C2_counterexample :
    (1 / (1 : ℚ) ≤ 2) ∧
    (run_calls ((2 : ℕ) : ℚ) 1 none (List.replicate (2 + 1) 0 ++ [2, 2])).1
      ≠ List.replicate 2 true ++ [false, true, false] ∧
    (run_calls ((2 : ℕ) : ℚ) 1 none (List.replicate (2 + 1) 0 ++ [2, 2])).1
      = List.replicate 2 true ++ [false, true, true] := by
  refine ⟨by norm_num, ?_, ?_⟩
  · norm_num [run_calls, allow_request, List.replicate]
  · norm_num [run_calls, allow_request, List.replicate]

/-- C6 (amended): After the export-generation job runs for an export row
    that exists at job start, the export's status is never left pending: on
    success the artifact is stored and status is set to ready, and on any
    exception during generation status is set to failed with the exception's
    text stored as the note (non-empty whenever that text is non-empty). -/
theorem claim_C6_export_terminal (ex : ExportRec) (db : ExportDB)
    (order_ids : List ℕ) (err : Option String) :
    ∃ ex', generate_export (some ex) db order_ids err = some ex' ∧
      ex'.status ≠ ExportStatus.pending ∧
      (err = none → ∀ rows, export_rows db order_ids = some rows →
        ex'.status = ExportStatus.ready ∧
        ex'.file = some (csv_encode (header_row :: rows))) ∧
      (∀ e, err = some e →
        ex'.status = ExportStatus.failed ∧ ex'.note = e) := by
  cases err with
  | some e =>
      refine ⟨_, rfl, by simp [generate_export], ?_, ?_⟩
      · intro h
        exact absurd h (by simp)
      · intro e' he
        injection he with he
        subst he
        exact ⟨rfl, rfl⟩
  | none =>
      cases ha : export_artifact db order_ids with
      | none =>
          refine ⟨{ ex with
                    status := ExportStatus.failed,
                    note := "Product matching query does not exist." }, ?_, ?_, ?_, ?_⟩
          · simp only [generate_export, ha]
          · simp
          · intro _ rows hrows
            exact absurd ha (by simp [export_artifact, hrows])
          · intro e he
            exact absurd he (by simp)
      | some a =>
          obtain ⟨rows, hrows, hart⟩ :
              ∃ rows, export_rows db order_ids = some rows
                ∧ a = csv_encode (header_row :: rows) := by
            cases hr : export_rows db order_ids with
            | none => simp [export_artifact, hr] at ha
            | some rows =>
                refine ⟨rows, rfl, ?_⟩
                simp [export_artifact, hr] at ha
                exact ha.symm
          refine ⟨{ ex with file := some a, status := ExportStatus.ready }, ?_, ?_, ?_, ?_⟩
          · simp only [generate_export, ha]
          · simp
          · intro _ rows' hrows'
            rw [hrows] at hrows'
            injection hrows' with hrows'
            subst hrows'
            exact ⟨rfl, by simp [hart]⟩
          · intro e he
            exact absurd he (by simp)

/-- Witness for C6 at the sample database: a successful run for export row
    sample_export ends with a non-pending status. -/
theorem claim_C6_export_terminal_witness :
    ∃ ex', generate_export (some sample_export) sample_export_db [1] none = some ex' ∧
      ex'.status ≠ ExportStatus.pending := by
  obtain ⟨ex', h1, h2, _, _⟩ :=
    claim_C6_export_terminal sample_export sample_export_db [1] none
  exact ⟨ex', h1, h2⟩

/-- C6 counterexample to the non-empty-note conjunct of the claim as
    stated: an exception whose text is empty (Python str(e) can be the empty
    string) marks the export failed but attaches an empty note. -/
theorem claim_C6_counterexample :
    generate_export (some sample_export) sample_export_db [1] (some "")
      = some { sample_export with status := ExportStatus.failed, note := "" } ∧
    ("" : String).length = 0 := by
  exact ⟨rfl, rfl⟩

/-- Rows are produced one per selected order when the product join
    succeeds. -/
theorem rows_of_length (products : ℕ → Option ProductRec)
    (l : List (ℕ × OrderRec)) (rows : List (List String))
    (h : rows_of products l = some rows) : rows.length = l.length := by
  induction l generalizing rows with
  | nil =>
      simp only [rows_of, Option.some.injEq] at h
      subst h
      rfl
  | cons pr rest ih =>
      simp only [rows_of] at h
      cases hp : products pr.2.product_id with
      | none => rw [hp] at h; exact absurd h (by simp)
      | some p =>
          rw [hp] at h
          cases hr : rows_of products rest with
          | none => rw [hr] at h; exact absurd h (by simp)
          | some rs =>
              rw [hr] at h
              injection h with h
              subst h
              simp [ih rs hr]

/-- Every selected order contributes its row to the produced rows. -/
theorem rows_of_mem (products : ℕ → Option ProductRec)
    (l : List (ℕ × OrderRec)) (rows : List (List String))
    (h : rows_of products l = some rows) (i : ℕ) (o : OrderRec)
    (hmem : (i, o) ∈ l) :
    ∃ p, products o.product_id = some p ∧ csv_row o p ∈ rows := by
  induction l generalizing rows with
  | nil => cases hmem
  | cons pr rest ih =>
      simp only [rows_of] at h
      cases hp : products pr.2.product_id with
      | none => rw [hp] at h; exact absurd h (by simp)
      | some p =>
          rw [hp] at h
          cases hr : rows_of products rest with
          | none => rw [hr] at h; exact absurd h (by simp)
          | some rs =>
              rw [hr] at h
              injection h with h
              subst h
              rcases List.mem_cons.mp hmem with heq | htail
              · subst heq
                exact ⟨p, hp, List.mem_cons_self _ _⟩
              · obtain ⟨p', hp', hrow⟩ := ih rs hr htail
                exact ⟨p', hp', List.mem_cons_of_mem _ hrow⟩

/-- C8: generate_export includes in the artifact a row for every existing
    order whose id appears in the supplied list, with no filtering by the
    requesting user's company: membership in the selection depends only on
    the row being stored and its id being listed, ids of orders belonging to
    other tenants are exported too, and duplicate ids in the list contribute
    one row each (the selection is unchanged under deduplication of the id
    list). -/
theorem claim_C8_export_selection (db : ExportDB) (order_ids : List ℕ) :
    (∀ i o, (i, o) ∈ selected_orders db.orders order_ids ↔
      ((i, o) ∈ db.orders ∧ i ∈ order_ids)) ∧
    selected_orders db.orders order_ids
      = selected_orders db.orders order_ids.dedup ∧
    (∀ rows, export_rows db order_ids = some rows →
      rows.length = (selected_orders db.orders order_ids).length ∧
      (∀ i o, (i, o) ∈ db.orders → i ∈ order_ids →
        ∃ p, db.products o.product_id = some p ∧ csv_row o p ∈ rows)) := by
  refine ⟨?_, ?_, ?_⟩
  · intro i o
    simp [selected_orders, List.mem_filter]
  · unfold selected_orders
    apply List.filter_congr
    intro pr _
    simp [List.mem_dedup]
  · intro rows hrows
    refine ⟨rows_of_length db.products _ rows hrows, ?_⟩
    intro i o hdb hid
    exact rows_of_mem db.products _ rows hrows i o
      (by simp [selected_orders, List.mem_filter, hdb, hid])

/-- Witness for C8 at the sample database with a duplicated id list that
    also names a missing order id 2: the selection contains exactly the one
    stored order and the artifact has exactly one data row. -/
theorem claim_C8_export_selection_witness :
    ((1, sample_order) ∈ selected_orders sample_export_db.orders [1, 1, 2]) ∧
    (∀ rows, export_rows sample_export_db [1, 1, 2] = some rows →
      rows.length = (selected_orders sample_export_db.orders [1, 1, 2]).length) :=
  ⟨((claim_C8_export_selection sample_export_db [1, 1, 2]).1 1 sample_order).mpr
      (by constructor
          · simp [sample_export_db]
          · simp),
   fun rows hrows =>
     ((claim_C8_export_selection sample_export_db [1, 1, 2]).2.2 rows hrows).1⟩

/-- Digit characters are decimal digits. -/
theorem digitChar_isDigit (n : ℕ) : (digitChar n).isDigit = true := by
  rcases n with _ | _ | _ | _ | _ | _ | _ | _ | _ | n <;> rfl

/-- Every character printed for a natural number is a decimal digit. -/
theorem natDigits_digits (n : ℕ) : ∀ c ∈ natDigits n, c.isDigit = true := by
  induction n using Nat.strong_induction_on with
  | _ n ih =>
      intro c hc
      rw [natDigits] at hc
      by_cases h : n < 10
      · rw [dif_pos h] at hc
        rcases List.mem_singleton.mp hc with rfl
        exact digitChar_isDigit n
      · rw [dif_neg h] at hc
        rcases List.mem_append.mp hc with hl | hr
        · exact ih (n / 10) (Nat.div_lt_self (by omega) (by omega)) c hl
        · rcases List.mem_singleton.mp hr with rfl
          exact digitChar_isDigit (n % 10)

/-- A number below ten prints as one digit. -/
theorem natDigits_len1 (n : ℕ) (h : n < 10) : (natDigits n).length = 1 := by
  rw [natDigits, dif_pos h]
  rfl

/-- A two-digit number prints as two digits. -/
theorem natDigits_len2 (n : ℕ) (h1 : 10 ≤ n) (h2 : n < 100) :
    (natDigits n).length = 2 := by
  rw [natDigits, dif_neg (by omega)]
  rw [List.length_append, natDigits_len1 (n / 10) (by omega)]
  rfl

/-- A three-digit number prints as three digits. -/
theorem natDigits_len3 (n : ℕ) (h1 : 100 ≤ n) (h2 : n < 1000) :
    (natDigits n).length = 3 := by
  rw [natDigits, dif_neg (by omega)]
  rw [List.length_append, natDigits_len2 (n / 10) (by omega) (by omega)]
  rfl

/-- A four-digit number prints as four digits. -/
theorem natDigits_len4 (n : ℕ) (h1 : 1000 ≤ n) (h2 : n < 10000) :
    (natDigits n).length = 4 := by
  rw [natDigits, dif_neg (by omega)]
  rw [List.length_append, natDigits_len3 (n / 10) (by omega) (by omega)]
  rfl

/-- A zero-padded field for a number below one hundred has two characters. -/
theorem pad2_len (n : ℕ) (h : n < 100) : (pad2 n).length = 2 := by
  unfold pad2
  by_cases h10 : n < 10
  · rw [if_pos h10]
    rw [List.length_cons, natDigits_len1 n h10]
  · rw [if_neg h10]
    exact natDigits_len2 n (by omega) h

/-- Every character of a zero-padded field is a decimal digit. -/
theorem pad2_digits (n : ℕ) : ∀ c ∈ pad2 n, c.isDigit = true := by
  intro c hc
  unfold pad2 at hc
  by_cases h10 : n < 10
  · rw [if_pos h10] at hc
    rcases List.mem_cons.mp hc with rfl | hm
    · rfl
    · exact natDigits_digits n c hm
  · rw [if_neg h10] at hc
    exact natDigits_digits n c hc

/-- Matching lists against concatenated masks, segment by segment. -/
theorem matches_mask_append (ms cs ms' cs' : List Char)
    (h1 : matches_mask ms cs = true) (h2 : matches_mask ms' cs' = true) :
    matches_mask (ms ++ ms') (cs ++ cs') = true := by
  induction ms generalizing cs with
  | nil =>
      cases cs with
      | nil => simpa using h2
      | cons c cs => simp [matches_mask] at h1
  | cons m ms ih =>
      cases cs with
      | nil => simp [matches_mask] at h1
      | cons c cs =>
          simp only [matches_mask, Bool.and_eq_true] at h1
          simp only [List.cons_append, matches_mask, Bool.and_eq_true]
          exact ⟨h1.1, ih cs h1.2⟩

/-- Matching one mask character followed by the rest. -/
theorem matches_mask_cons (m c : Char) (ms cs : List Char)
    (h1 : char_matches m c = true) (h2 : matches_mask ms cs = true) :
    matches_mask (m :: ms) (c :: cs) = true := by
  simp [matches_mask, h1, h2]

/-- A list of decimal digits matches the all-digit mask of its length. -/
theorem matches_digits (cs : List Char) (h : ∀ c ∈ cs, c.isDigit = true) :
    matches_mask (List.replicate cs.length 'D') cs = true := by
  induction cs with
  | nil => rfl
  | cons c cs ih =>
      rw [List.length_cons, List.replicate_succ]
      exact matches_mask_cons _ _ _ _
        (by simp [char_matches, h c (List.mem_cons_self _ _)])
        (ih (fun c' hc' => h c' (List.mem_cons_of_mem _ hc')))

/-- The strftime output for in-range datetime components matches the
    YYYY-MM-DD HH:MM:SS mask. -/
theorem ts_matches_fmt (dt : DateTime) (h : dt_in_range dt = true) :
    ts_matches (fmt_timestamp dt) = true := by
  simp only [dt_in_range, Bool.and_eq_true, decide_eq_true_eq] at h
  obtain ⟨⟨⟨⟨⟨⟨hy1, hy2⟩, hmo⟩, hd⟩, hh⟩, hmi⟩, hs⟩ := h
  have hy : matches_mask (List.replicate 4 'D') (natDigits dt.year) = true := by
    rw [show (4 : ℕ) = (natDigits dt.year).length from (natDigits_len4 _ hy1 hy2).symm]
    exact matches_digits _ (natDigits_digits dt.year)
  have hp : ∀ n, n < 100 → matches_mask (List.replicate 2 'D') (pad2 n) = true := by
    intro n hn
    rw [show (2 : ℕ) = (pad2 n).length from (pad2_len n hn).symm]
    exact matches_digits _ (pad2_digits n)
  have hdata0 : (fmt_timestamp dt).data
      = natDigits dt.year ++ '-' :: pad2 dt.month ++ '-' :: pad2 dt.day
        ++ ' ' :: pad2 dt.hour ++ ':' :: pad2 dt.minute
        ++ ':' :: pad2 dt.second := rfl
  have hdata : (fmt_timestamp dt).data
      = natDigits dt.year ++ '-' :: (pad2 dt.month ++ '-' :: (pad2 dt.day
        ++ ' ' :: (pad2 dt.hour ++ ':' :: (pad2 dt.minute
        ++ ':' :: pad2 dt.second)))) := by
    rw [hdata0]
    simp [List.append_assoc]
  have hmask : ts_mask = List.replicate 4 'D' ++ '-' :: (List.replicate 2 'D'
      ++ '-' :: (List.replicate 2 'D' ++ ' ' :: (List.replicate 2 'D'
      ++ ':' :: (List.replicate 2 'D' ++ ':' :: List.replicate 2 'D')))) := by
    decide
  unfold ts_matches
  rw [hmask, hdata]
  apply matches_mask_append _ _ _ _ hy
  apply matches_mask_cons _ _ _ _ (by decide)
  apply matches_mask_append _ _ _ _ (hp _ hmo)
  apply matches_mask_cons _ _ _ _ (by decide)
  apply matches_mask_append _ _ _ _ (hp _ hd)
  apply matches_mask_cons _ _ _ _ (by decide)
  apply matches_mask_append _ _ _ _ (hp _ hh)
  apply matches_mask_cons _ _ _ _ (by decide)
  apply matches_mask_append _ _ _ _ (hp _ hmi)
  apply matches_mask_cons _ _ _ _ (by decide)
  exact hp _ hs

/-- takeWhile keeps a list all of whose elements satisfy the predicate. -/
theorem takeWhile_of_all {p : Char → Bool} (l : List Char)
    (h : ∀ c ∈ l, p c = true) : l.takeWhile p = l := by
  induction l with
  | nil => rfl
  | cons c cs ih =>
      rw [List.takeWhile_cons, h c (List.mem_cons_self _ _)]
      rw [ih (fun c' hc' => h c' (List.mem_cons_of_mem _ hc'))]
      rfl

/-- takeWhile stops exactly at the first failing element. -/
theorem takeWhile_append_stop {p : Char → Bool} (l₁ l₂ : List Char) (y : Char)
    (h : ∀ c ∈ l₁, p c = true) (hy : p y = false) :
    (l₁ ++ y :: l₂).takeWhile p = l₁ := by
  induction l₁ with
  | nil => simp [List.takeWhile_cons, hy]
  | cons c cs ih =>
      rw [List.cons_append, List.takeWhile_cons, h c (List.mem_cons_self _ _)]
      rw [ih (fun c' hc' => h c' (List.mem_cons_of_mem _ hc'))]
      rfl

/-- The first line of an encoded document is its encoded first record,
    provided that record's encoding contains no newline. -/
theorem first_line_csv_encode (hd : List String) (rows : List (List String))
    (hnl : ∀ c ∈ encode_record (hd.map String.data), (c ≠ '\n' : Bool) = true) :
    first_line (csv_encode (hd :: rows))
      = String.mk (encode_record (hd.map String.data)) := by
  unfold first_line csv_encode
  cases rows with
  | nil =>
      show String.mk ((encode_doc [hd.map String.data]).takeWhile _) = _
      rw [show encode_doc [hd.map String.data]
            = encode_record (hd.map String.data) from rfl]
      rw [takeWhile_of_all _ hnl]
  | cons r rest =>
      show String.mk ((encode_doc (hd.map String.data
        :: (r :: rest).map (List.map String.data))).takeWhile _) = _
      rw [show encode_doc (hd.map String.data
            :: (r :: rest).map (List.map String.data))
          = encode_record (hd.map String.data)
            ++ '\n' :: encode_doc ((r :: rest).map (List.map String.data)) from by
        simp [encode_doc, joinSep]]
      rw [takeWhile_append_stop _ _ _ hnl (by decide)]

/-- Every produced row is the csv_row of some selected order and its
    product. -/
theorem rows_of_shape (products : ℕ → Option ProductRec)
    (l : List (ℕ × OrderRec)) (rows : List (List String))
    (h : rows_of products l = some rows) :
    ∀ row ∈ rows, ∃ i o p, (i, o) ∈ l ∧ products o.product_id = some p ∧
      row = csv_row o p := by
  induction l generalizing rows with
  | nil =>
      simp only [rows_of, Option.some.injEq] at h
      subst h
      intro row hrow
      cases hrow
  | cons pr rest ih =>
      simp only [rows_of] at h
      cases hp : products pr.2.product_id with
      | none => rw [hp] at h; exact absurd h (by simp)
      | some p =>
          rw [hp] at h
          cases hr : rows_of products rest with
          | none => rw [hr] at h; exact absurd h (by simp)
          | some rs =>
              rw [hr] at h
              injection h with h
              subst h
              intro row hrow
              rcases List.mem_cons.mp hrow with rfl | htail
              · exact ⟨pr.1, pr.2, p, by simp, hp, rfl⟩
              · obtain ⟨i, o, p', hmem, hp', hrow'⟩ := ih rs hr row htail
                exact ⟨i, o, p', List.mem_cons_of_mem _ hmem, hp', hrow'⟩

/-- C7: The export artifact produced by generate_export is comma-separated
    with every field double-quoted; its first row consists of exactly the
    header fields Reference Code, Product, SKU, Quantity, Status, Created
    By, Company, Created At (serialized as the line of those eight
    double-quoted names joined by commas); and each order's creation
    timestamp is formatted YYYY-MM-DD HH:MM:SS. -/
theorem claim_C7_artifact_format (db : ExportDB) (order_ids : List ℕ)
    (a : String) (ha : export_artifact db order_ids = some a)
    (hdt : ∀ pr ∈ db.orders, dt_in_range (pr : ℕ × OrderRec).2.created_at = true) :
    first_line a = "\"Reference Code\",\"Product\",\"SKU\",\"Quantity\",\"Status\",\"Created By\",\"Company\",\"Created At\"" ∧
    (∃ rows, export_rows db order_ids = some rows ∧
      a = csv_encode (header_row :: rows) ∧
      ∀ row ∈ rows, ∃ cell, row.getLast? = some cell ∧ ts_matches cell = true) := by
  obtain ⟨rows, hrows, hart⟩ :
      ∃ rows, export_rows db order_ids = some rows
        ∧ a = csv_encode (header_row :: rows) := by
    cases hr : export_rows db order_ids with
    | none => simp [export_artifact, hr] at ha
    | some rows =>
        refine ⟨rows, rfl, ?_⟩
        simp [export_artifact, hr] at ha
        exact ha.symm
  subst hart
  constructor
  · rw [first_line_csv_encode header_row rows (by decide)]
    rfl
  · refine ⟨rows, hrows, rfl, ?_⟩
    intro row hrow
    obtain ⟨i, o, p, hmem, hp, hshape⟩ :=
      rows_of_shape db.products _ rows hrows row hrow
    refine ⟨fmt_timestamp o.created_at, ?_, ?_⟩
    · rw [hshape]
      rfl
    · exact ts_matches_fmt o.created_at
        (hdt (i, o) (List.mem_of_mem_filter hmem))

/-- Witness for C7 at the sample database: the artifact for order id 1 has
    exactly the quoted header as its first line. -/
theorem claim_C7_artifact_format_witness :
    first_line (csv_encode (header_row :: [csv_row sample_order sample_product]))
      = "\"Reference Code\",\"Product\",\"SKU\",\"Quantity\",\"Status\",\"Created By\",\"Company\",\"Created At\"" :=
  (claim_C7_artifact_format sample_export_db [1]
    (csv_encode (header_row :: [csv_row sample_order sample_product]))
    (by rfl) (by decide)).1

/-- A quote-free field body followed by its closing quote parses back to
    itself, provided what follows the closing quote does not begin with a
    quote. -/
theorem parse_content_encode (c rest : List Char) (fuel : ℕ)
    (hq : '"' ∉ c) (hr : rest.head? ≠ some '"') (hfuel : c.length < fuel) :
    parse_content fuel (c ++ '"' :: rest) = some (c, rest) := by
  induction c generalizing fuel with
  | nil =>
      obtain ⟨f, rfl⟩ : ∃ f, fuel = f + 1 := ⟨fuel - 1, by omega⟩
      cases rest with
      | nil => simp [parse_content]
      | cons r rs =>
          have hr' : r ≠ '"' := by
            intro h
            exact hr (by simp [h])
          simp [parse_content, hr']
  | cons a as ih =>
      obtain ⟨f, rfl⟩ : ∃ f, fuel = f + 1 := ⟨fuel - 1, by omega⟩
      have ha : a ≠ '"' := by
        intro h
        exact hq (by simp [h])
      simp only [List.cons_append, parse_content, if_neg ha]
      rw [show as.append ('"' :: rest) = as ++ '"' :: rest from rfl]
      rw [ih f (fun hc => hq (List.mem_cons_of_mem _ hc))
            (Nat.lt_of_succ_lt_succ hfuel)]
      rfl

/-- One cell of a record: encode_record of a single cell is its quoting. -/
theorem encode_record_single (c : List Char) : encode_record [c] = quote_cell c := rfl

/-- First cell of a longer record, then a comma, then the rest. -/
theorem encode_record_cons (c c₂ : List Char) (cs : List (List Char)) :
    encode_record (c :: c₂ :: cs) = quote_cell c ++ ',' :: encode_record (c₂ :: cs) := rfl

/-- One record of a document: encode_doc of a single record is its line. -/
theorem encode_doc_single (r : List (List Char)) : encode_doc [r] = encode_record r := rfl

/-- First line of a longer document, then a newline, then the rest. -/
theorem encode_doc_cons (r r₂ : List (List Char)) (rs : List (List (List Char))) :
    encode_doc (r :: r₂ :: rs) = encode_record r ++ '\n' :: encode_doc (r₂ :: rs) := rfl

/-- An encoded record of quote-free cells parses back to its cells,
    provided what follows does not begin with a comma or a quote. -/
theorem parse_record_encode (cells : List (List Char)) (rest : List Char) (fuel : ℕ)
    (hne : cells ≠ []) (hq : ∀ c ∈ cells, '"' ∉ c)
    (hr1 : rest.head? ≠ some ',') (hr2 : rest.head? ≠ some '"')
    (hfuel : (encode_record cells).length ≤ fuel) :
    parse_record fuel (encode_record cells ++ rest) = some (cells, rest) := by
  induction cells generalizing rest fuel with
  | nil => exact absurd rfl hne
  | cons c cs ih =>
      obtain ⟨f, rfl⟩ : ∃ f, fuel = f + 1 := by
        refine ⟨fuel - 1, ?_⟩
        have : 0 < (encode_record (c :: cs)).length := by
          cases cs <;> simp [encode_record_single, encode_record_cons, quote_cell]
        omega
      cases cs with
      | nil =>
          rw [encode_record_single] at hfuel ⊢
          have hcf : parse_field f (quote_cell c ++ rest)
              = some (c, rest) := by
            have hql : quote_cell c ++ rest = '"' :: (c ++ '"' :: rest) := by
              simp [quote_cell]
            rw [hql]
            show parse_content f (c ++ '"' :: rest) = some (c, rest)
            exact parse_content_encode c rest f
              (hq c (List.mem_cons_self _ _)) hr2
              (by simp [quote_cell] at hfuel; omega)
          simp only [parse_record, hcf]
          cases rest with
          | nil => rfl
          | cons r rs =>
              have hr' : r ≠ ',' := by
                intro h
                exact hr1 (by simp [h])
              simp [hr']
      | cons c₂ cs₂ =>
          rw [encode_record_cons] at hfuel ⊢
          rw [List.append_assoc, List.cons_append]
          have hcf : parse_field f (quote_cell c
              ++ (',' :: (encode_record (c₂ :: cs₂) ++ rest)))
              = some (c, ',' :: (encode_record (c₂ :: cs₂) ++ rest)) := by
            have hql : quote_cell c ++ (',' :: (encode_record (c₂ :: cs₂) ++ rest))
                = '"' :: (c ++ '"' :: (',' :: (encode_record (c₂ :: cs₂) ++ rest))) := by
              simp [quote_cell]
            rw [hql]
            show parse_content f (c ++ '"' :: (',' :: (encode_record (c₂ :: cs₂) ++ rest)))
              = some (c, ',' :: (encode_record (c₂ :: cs₂) ++ rest))
            exact parse_content_encode c _ f
              (hq c (List.mem_cons_self _ _)) (by simp)
              (by simp [quote_cell, List.length_append] at hfuel; omega)
          simp only [parse_record, hcf]
          rw [ih _ f (by simp) (fun c' hc' => hq c' (List.mem_cons_of_mem _ hc'))
                hr1 hr2
                (by simp [quote_cell, List.length_append] at hfuel; omega)]

/-- An encoded document of nonempty records of quote-free cells parses back
    to its records (the converse direction of the writer). -/
theorem parse_doc_encode (rows : List (List (List Char))) (fuel : ℕ)
    (hne : rows ≠ []) (hrne : ∀ r ∈ rows, r ≠ [])
    (hq : ∀ r ∈ rows, ∀ c ∈ r, '"' ∉ c)
    (hfuel : (encode_doc rows).length < fuel) :
    parse_doc fuel (encode_doc rows) = some rows := by
  induction rows generalizing fuel with
  | nil => exact absurd rfl hne
  | cons r rs ih =>
      obtain ⟨f, rfl⟩ : ∃ f, fuel = f + 1 := ⟨fuel - 1, by omega⟩
      cases rs with
      | nil =>
          rw [encode_doc_single] at hfuel ⊢
          have hrec : parse_record f (encode_record r ++ [])
              = some (r, []) :=
            parse_record_encode r [] f (hrne r (List.mem_cons_self _ _))
              (hq r (List.mem_cons_self _ _)) (by simp) (by simp) (by omega)
          rw [← List.append_nil (encode_record r)]
          simp only [parse_doc, hrec]
      | cons r₂ rs₂ =>
          rw [encode_doc_cons] at hfuel ⊢
          have hrec : parse_record f (encode_record r
              ++ '\n' :: encode_doc (r₂ :: rs₂))
              = some (r, '\n' :: encode_doc (r₂ :: rs₂)) :=
            parse_record_encode r _ f (hrne r (List.mem_cons_self _ _))
              (hq r (List.mem_cons_self _ _)) (by simp) (by simp)
              (by simp [List.length_append] at hfuel; omega)
          simp only [parse_doc, hrec]
          rw [ih f (by simp) (fun r' hr' => hrne r' (List.mem_cons_of_mem _ hr'))
                (fun r' hr' => hq r' (List.mem_cons_of_mem _ hr'))
                (by simp [List.length_append] at hfuel; omega)]

/-- C10 (amended): The export writer encodes each cell by wrapping the
    cell's string value in double quotes without escaping embedded
    double-quote, comma, or newline characters, joining cells with ',' and
    rows with a newline; consequently, whenever no cell value contains a
    double-quote character, the artifact is a well-formed quoted-CSV
    document and parses back to exactly the original rows (cells containing
    commas or newlines included).  The converse fails: some cell values
    containing double quotes still yield well-formed documents. -/
theorem claim_C10_csv_writer (rows : List (List String))
    (hrows : rows ≠ []) (hcells : ∀ r ∈ rows, r ≠ [])
    (hq : ∀ r ∈ rows, ∀ cell ∈ r, '"' ∉ cell.data) :
    (∀ rs : List (List String), csv_encode rs
      = String.mk (joinSep '\n' (rs.map (fun r =>
          joinSep ',' (r.map (fun cell => '"' :: cell.data ++ ['"'])))))) ∧
    parse_doc ((csv_encode rows).data.length + 1) (csv_encode rows).data
      = some (rows.map (fun r => r.map String.data)) ∧
    csv_well_formed (csv_encode rows) = true := by
  have hparse : parse_doc ((csv_encode rows).data.length + 1) (csv_encode rows).data
      = some (rows.map (fun r => r.map String.data)) := by
    show parse_doc ((encode_doc (rows.map (fun r => r.map String.data))).length + 1)
        (encode_doc (rows.map (fun r => r.map String.data)))
      = some (rows.map (fun r => r.map String.data))
    apply parse_doc_encode
    · simpa using hrows
    · intro r hr
      obtain ⟨r₀, hr₀, rfl⟩ := List.mem_map.mp hr
      simpa using hcells r₀ hr₀
    · intro r hr c hc
      obtain ⟨r₀, hr₀, rfl⟩ := List.mem_map.mp hr
      obtain ⟨c₀, hc₀, rfl⟩ := List.mem_map.mp hc
      exact hq r₀ hr₀ c₀ hc₀
    · omega
  refine ⟨?_, hparse, by
    unfold csv_well_formed
    rw [hparse]
    rfl⟩
  intro rs
  unfold csv_encode encode_doc
  rw [List.map_map]
  congr 3
  funext r
  show encode_record (r.map String.data) = _
  unfold encode_record
  rw [List.map_map]
  rfl

/-- Witness for C10: a two-row artifact whose second cell contains a comma;
    the document parses back to the original rows and is well-formed. -/
theorem claim_C10_csv_writer_witness :
    parse_doc ((csv_encode [["a"], ["b,c"]]).data.length + 1)
        (csv_encode [["a"], ["b,c"]]).data
      = some [[['a']], [['b', ',', 'c']]] ∧
    csv_well_formed (csv_encode [["a"], ["b,c"]]) = true :=
  ⟨(claim_C10_csv_writer [["a"], ["b,c"]] (by decide) (by decide) (by decide)).2.1,
   (claim_C10_csv_writer [["a"], ["b,c"]] (by decide) (by decide) (by decide)).2.2⟩

/-- C10 counterexample to the claim's "exactly when": the single cell
    consisting of the four characters a""b contains double quotes, yet the
    encoded artifact "a""b" is accepted by the quoted-CSV grammar (the inner
    pair reads as an escaped quote), so well-formedness does not force
    quote-free cells. -/
theorem claim_C10_counterexample :
    ('"' ∈ ("a\"\"b" : String).data) ∧
    csv_well_formed (csv_encode [["a\"\"b"]]) = true := by
  constructor
  · decide
  · decide

end PaymobTask
